import Mathlib

/-!
Verification of the convolution kernel of the `technicalities` repository
(notebook `2022-08-03-speeding_up_convolution.ipynb` and the JAX `Conv2D`
notebook) against its natural-language specification.

Arrays are embedded shallowly: a rank-`r` numpy array is its tuple of axis
lengths together with an entry function on indices; entries outside the axis
bounds are junk and every statement is up to `EqOn`, equality of the lengths
and of the in-bounds entries.  Scalars are `ℚ` (the claims speak of exact
arithmetic).  Fallible numpy steps (`np.zeros` with a negative extent,
broadcasting failure, index errors, the in-place `+=`) make the embedded
functions return `Option`.  Python's floor division `//` is `Int.fdiv`.
Strides are assumed positive throughout (Python's `range` rejects step 0).
-/

namespace Technicalities

/-- A rank-1 numpy array: axis length and entries (out-of-bounds entries are junk). -/
structure Arr1 where
  d0 : ℕ
  data : ℕ → ℚ

/-- A rank-3 numpy array (single image: row, column, input channel). -/
structure Arr3 where
  d0 : ℕ
  d1 : ℕ
  d2 : ℕ
  data : ℕ → ℕ → ℕ → ℚ

/-- A rank-4 numpy array (image batch: batch, row, column, channel; or a
filter bank: filter row, filter column, input channel, output channel). -/
structure Arr4 where
  d0 : ℕ
  d1 : ℕ
  d2 : ℕ
  d3 : ℕ
  data : ℕ → ℕ → ℕ → ℕ → ℚ

/-- Equality of rank-1 arrays: same length, same in-bounds entries. -/
def Arr1.EqOn (a b : Arr1) : Prop :=
  a.d0 = b.d0 ∧ ∀ i, i < a.d0 → a.data i = b.data i

/-- Equality of rank-3 arrays: same axis lengths, same in-bounds entries. -/
def Arr3.EqOn (a b : Arr3) : Prop :=
  a.d0 = b.d0 ∧ a.d1 = b.d1 ∧ a.d2 = b.d2 ∧
    ∀ i, i < a.d0 → ∀ j, j < a.d1 → ∀ k, k < a.d2 → a.data i j k = b.data i j k

/-- Equality of rank-4 arrays: same axis lengths, same in-bounds entries. -/
def Arr4.EqOn (a b : Arr4) : Prop :=
  a.d0 = b.d0 ∧ a.d1 = b.d1 ∧ a.d2 = b.d2 ∧ a.d3 = b.d3 ∧
    ∀ n, n < a.d0 → ∀ i, i < a.d1 → ∀ j, j < a.d2 → ∀ k, k < a.d3 →
      a.data n i j k = b.data n i j k

instance (a b : Arr1) : Decidable (a.EqOn b) := by
  unfold Arr1.EqOn; infer_instance

instance (a b : Arr3) : Decidable (a.EqOn b) := by
  unfold Arr3.EqOn; infer_instance

instance (a b : Arr4) : Decidable (a.EqOn b) := by
  unfold Arr4.EqOn; infer_instance

/-- Left-to-right accumulation `f 0 + f 1 + ⋯ + f (n-1)`: the order in which
the scalar loop of `filter_images_v3` accumulates `tmp`, and a linearisation
of `np.sum` (over `ℚ` the order is irrelevant). -/
def sumR : ℕ → (ℕ → ℚ) → ℚ
  | 0, _ => 0
  | n + 1, f => sumR n f + f n

/-- numpy's per-axis broadcast rule: two axis lengths are compatible when they
are equal or one of them is `1`; the broadcast length is the larger one. -/
def bcastDim (a b : ℕ) : Option ℕ :=
  if a = b then some a else if a = 1 then some b else if b = 1 then some a else none

/-- Index into an axis of length `d` after broadcasting: a length-1 axis is
read at position 0, any other axis at the requested position. -/
def bcastIdx (d i : ℕ) : ℕ :=
  if d = 1 then 0 else i

/-- The output extent `1 + (x - k)//s` computed by every variant, with
Python's floor division on possibly negative `x - k`. -/
def outExtent (x k s : ℕ) : ℤ :=
  1 + Int.fdiv ((x : ℤ) - (k : ℤ)) (s : ℤ)

/-- The image at batch index `n` of a rank-4 batch (a view, as in the
list comprehension `for image in batch`). -/
def batchImage (batch : Arr4) (n : ℕ) : Arr3 :=
  ⟨batch.d1, batch.d2, batch.d3, fun i j k => batch.data n i j k⟩

/-- Shallow embedding of the notebook's `filter_image(image, filters, strides)`:
`np.zeros((ym, yn, no))` fails on a negative extent; if all three loops run,
`filters[:,:,:,channel] * chunk` broadcasts the two channel axes (the spatial
axes of the chunk equal the filter's by construction) and fails when they are
incompatible; otherwise each output cell is the full elementwise sum. -/
def filter_image (image : Arr3) (filters : Arr4) (sm sn : ℕ) : Option Arr3 :=
  if outExtent image.d0 filters.d0 sm < 0 ∨ outExtent image.d1 filters.d1 sn < 0 then
    none
  else if (outExtent image.d0 filters.d0 sm).toNat = 0 ∨
      (outExtent image.d1 filters.d1 sn).toNat = 0 ∨ filters.d3 = 0 then
    some ⟨(outExtent image.d0 filters.d0 sm).toNat, (outExtent image.d1 filters.d1 sn).toNat,
      filters.d3, fun _ _ _ => 0⟩
  else
    (bcastDim filters.d2 image.d2).map fun nc =>
      ⟨(outExtent image.d0 filters.d0 sm).toNat, (outExtent image.d1 filters.d1 sn).toNat,
        filters.d3, fun iy jy ch =>
          sumR filters.d0 fun dh => sumR filters.d1 fun dw => sumR nc fun c =>
            filters.data dh dw (bcastIdx filters.d2 c) ch *
              image.data (iy * sm + dh) (jy * sn + dw) (bcastIdx image.d2 c)⟩

/-- Shallow embedding of `filter_images_v1(batch, filters, biases, strides)`.
On an empty batch the list comprehension is empty, `np.array([])` has shape
`(0,)` and the out-of-place `outputs + biases` broadcasts `(0,)` against
`(nb,)`, yielding a rank-1 result or failing; on a nonempty batch the stacked
rank-4 result has the biases broadcast onto its last axis. -/
def filter_images_v1 (batch filters : Arr4) (biases : Arr1) (sm sn : ℕ) :
    Option (Arr4 ⊕ Arr1) :=
  if batch.d0 = 0 then
    (bcastDim 0 biases.d0).map fun d => Sum.inr ⟨d, fun _ => 0⟩
  else
    (filter_image (batchImage batch 0) filters sm sn).bind fun y0 =>
      (bcastDim y0.d2 biases.d0).map fun dc =>
        Sum.inl ⟨batch.d0, y0.d0, y0.d1, dc, fun n i j c =>
          (Option.elim (filter_image (batchImage batch n) filters sm sn) 0 fun y =>
            y.data i j (bcastIdx y0.d2 c)) + biases.data (bcastIdx biases.d0 c)⟩

/-- Shallow embedding of `filter_images_v2(images, filters, biases, strides)`:
negative-extent `np.zeros` fails; if the three loops run, the broadcast of the
filter slice `(km,kn,ni)` against the chunk `(B,km,kn,ci)` fails when the
channel axes are incompatible; the in-place `y += biases` requires the bias
length to equal the output-channel count or be `1`. -/
def filter_images_v2 (images filters : Arr4) (biases : Arr1) (sm sn : ℕ) : Option Arr4 :=
  if outExtent images.d1 filters.d0 sm < 0 ∨ outExtent images.d2 filters.d1 sn < 0 then
    none
  else if ¬ ((outExtent images.d1 filters.d0 sm).toNat = 0 ∨
        (outExtent images.d2 filters.d1 sn).toNat = 0 ∨ filters.d3 = 0) ∧
      bcastDim filters.d2 images.d3 = none then
    none
  else if ¬ (biases.d0 = filters.d3 ∨ biases.d0 = 1) then
    none
  else
    some ⟨images.d0, (outExtent images.d1 filters.d0 sm).toNat,
      (outExtent images.d2 filters.d1 sn).toNat, filters.d3, fun n iy jy ch =>
        (sumR filters.d0 fun dh => sumR filters.d1 fun dw =>
          sumR ((bcastDim filters.d2 images.d3).getD 0) fun c =>
            filters.data dh dw (bcastIdx filters.d2 c) ch *
              images.data n (iy * sm + dh) (jy * sn + dw) (bcastIdx images.d3 c)) +
          biases.data (bcastIdx biases.d0 ch)⟩

/-- Shallow embedding of `filter_images_v3(images, filters, biases, strides)`:
negative-extent `np.zeros` fails; the scalar loops read
`chunk[item, h, w, input_chan]` for `input_chan < ni`, an `IndexError` as soon
as it executes with `ni` exceeding the image channel count `ci`; the in-place
`y += biases` requires the bias length to equal `nf` or be `1`; otherwise the
accumulated `tmp` sums `h`, `w`, `input_chan` in increasing order. -/
def filter_images_v3 (images filters : Arr4) (biases : Arr1) (sm sn : ℕ) : Option Arr4 :=
  if outExtent images.d1 filters.d0 sm < 0 ∨ outExtent images.d2 filters.d1 sn < 0 then
    none
  else if (outExtent images.d1 filters.d0 sm).toNat ≠ 0 ∧
      (outExtent images.d2 filters.d1 sn).toNat ≠ 0 ∧ filters.d3 ≠ 0 ∧ images.d0 ≠ 0 ∧
      filters.d0 ≠ 0 ∧ filters.d1 ≠ 0 ∧ images.d3 < filters.d2 then
    none
  else if ¬ (biases.d0 = filters.d3 ∨ biases.d0 = 1) then
    none
  else
    some ⟨images.d0, (outExtent images.d1 filters.d0 sm).toNat,
      (outExtent images.d2 filters.d1 sn).toNat, filters.d3, fun n iy jy ch =>
        (sumR filters.d0 fun h => sumR filters.d1 fun w => sumR filters.d2 fun c =>
          images.data n (iy * sm + h) (jy * sn + w) c * filters.data h w c ch) +
          biases.data (bcastIdx biases.d0 ch)⟩

/-- The specification's §4.1 contract, written from the claim text:
output extents `(H − kH)/sH + 1` and `(W − kW)/sW + 1`, and
`output[n,i,j,c] = bias[c] + Σ_{dh,dw,ci} image[n, i·sH+dh, j·sW+dw, ci] ·
filter[dh,dw,ci,c]`. -/
def specOutput (images filters : Arr4) (biases : Arr1) (sm sn : ℕ) : Arr4 :=
  ⟨images.d0, (images.d1 - filters.d0) / sm + 1, (images.d2 - filters.d1) / sn + 1,
    filters.d3, fun n i j c =>
      biases.data c +
        sumR filters.d0 fun dh => sumR filters.d1 fun dw => sumR filters.d2 fun ci =>
          images.data n (i * sm + dh) (j * sn + dw) ci * filters.data dh dw ci c⟩

/-- Modelled from the spec: `jax.lax.conv_general_dilated` with
`dimension_numbers=('NHWC','HWIO','NHWC')` and valid padding, a library
routine the repository calls but does not define; §4.1/§6 of the spec give
its contract — the strided valid-padding windowed product without bias. -/
def conv_general_dilated_valid (batch filters : Arr4) (sm sn : ℕ) : Arr4 :=
  ⟨batch.d0, (outExtent batch.d1 filters.d0 sm).toNat,
    (outExtent batch.d2 filters.d1 sn).toNat, filters.d3, fun n i j c =>
      sumR filters.d0 fun dh => sumR filters.d1 fun dw => sumR filters.d2 fun ci =>
        batch.data n (i * sm + dh) (j * sn + dw) ci * filters.data dh dw ci c⟩

/-- The fields of the JAX notebook's `Conv2D` layer that `__call__` uses
(padding is fixed to `'valid'`, the only mode the notebook exercises). -/
structure Conv2D where
  filters : Arr4
  biases : Arr1
  sm : ℕ
  sn : ℕ

/-- Shallow embedding of the notebook's `Conv2D.__call__` as written: after
the convolution it executes `outputs += biases`, which on immutable JAX
arrays rebinds `outputs` to `outputs + biases` where `biases` is the ambient
notebook variable, not `self.biases`; the ambient vector is therefore an
explicit argument here, and the addition broadcasts on the last axis. -/
def Conv2D.call (layer : Conv2D) (ambient : Arr1) (batch : Arr4) : Option Arr4 :=
  (bcastDim (conv_general_dilated_valid batch layer.filters layer.sm layer.sn).d3
      ambient.d0).map fun dc =>
    ⟨batch.d0, (conv_general_dilated_valid batch layer.filters layer.sm layer.sn).d1,
      (conv_general_dilated_valid batch layer.filters layer.sm layer.sn).d2, dc,
      fun n i j c =>
        (conv_general_dilated_valid batch layer.filters layer.sm layer.sn).data n i j
            (bcastIdx layer.filters.d3 c) +
          ambient.data (bcastIdx ambient.d0 c)⟩

/-- The behaviour C6 states for `Conv2D.__call__`: the convolution plus the
layer's own per-output-channel biases, broadcast across batch and space. -/
def Conv2D.contractCall (layer : Conv2D) (batch : Arr4) : Arr4 :=
  ⟨batch.d0, (conv_general_dilated_valid batch layer.filters layer.sm layer.sn).d1,
    (conv_general_dilated_valid batch layer.filters layer.sm layer.sn).d2,
    layer.filters.d3, fun n i j c =>
      (conv_general_dilated_valid batch layer.filters layer.sm layer.sn).data n i j c +
        layer.biases.data c⟩

/-- Relates two fallible rank-3 results: both fail, or both succeed with
`EqOn`-equal arrays. -/
def OptRel3 : Option Arr3 → Option Arr3 → Prop
  | none, none => True
  | some a, some b => a.EqOn b
  | _, _ => False

/-- Relates two fallible rank-4 results. -/
def OptRel4 : Option Arr4 → Option Arr4 → Prop
  | none, none => True
  | some a, some b => a.EqOn b
  | _, _ => False

/-- Relates two fallible `filter_images_v1` results (rank 4 or rank 1). -/
def OptRelV1 : Option (Arr4 ⊕ Arr1) → Option (Arr4 ⊕ Arr1) → Prop
  | none, none => True
  | some (Sum.inl a), some (Sum.inl b) => a.EqOn b
  | some (Sum.inr a), some (Sum.inr b) => a.EqOn b
  | _, _ => False

/-! ### Concrete example arrays used as witnesses and counterexamples -/

/-- An empty image batch (batch 0) of spatial size 1×1 with one channel. -/
def exImg0 : Arr4 := ⟨0, 1, 1, 1, fun _ _ _ _ => 0⟩

/-- A one-image 1×1 batch with one channel; the pixel value is 3. -/
def exImg1 : Arr4 := ⟨1, 1, 1, 1, fun _ _ _ _ => 3⟩

/-- A one-image 2×2 batch with three channels. -/
def exImgC3 : Arr4 := ⟨1, 2, 2, 3, fun _ i j c => (2 * i + j + c : ℚ)⟩

/-- A one-image 2×2 batch with two channels. -/
def exImgC2 : Arr4 := ⟨1, 2, 2, 2, fun _ i j c => (i + j + c : ℚ)⟩

/-- A one-image batch of spatial size 1×2 with one channel (small height). -/
def exImgH1 : Arr4 := ⟨1, 1, 2, 1, fun _ _ j _ => (j + 1 : ℚ)⟩

/-- A single 2×2 image (rank 3) with three channels. -/
def exImg3 : Arr3 := ⟨2, 2, 3, fun i j c => (2 * i + j + c : ℚ)⟩

/-- A 1×1 filter bank with one input channel and two output channels. -/
def exFil : Arr4 := ⟨1, 1, 1, 2, fun _ _ _ c => (c + 1 : ℚ)⟩

/-- A 1×1×1×1 filter bank with weight 2. -/
def exFil1 : Arr4 := ⟨1, 1, 1, 1, fun _ _ _ _ => 2⟩

/-- A 1×1 filter bank with three input channels and two output channels. -/
def exFilN3 : Arr4 := ⟨1, 1, 3, 2, fun _ _ c o => (c + o : ℚ)⟩

/-- A 2×1 filter bank (taller than `exImgH1`) with matching channels. -/
def exFilK2 : Arr4 := ⟨2, 1, 1, 1, fun _ _ _ _ => 1⟩

/-- A 3×1 filter bank (taller than `exImgH1` by more than the stride). -/
def exFilK3 : Arr4 := ⟨3, 1, 1, 1, fun _ _ _ _ => 1⟩

/-- An all-zero 1×1 filter bank with three input and four output channels. -/
def exFilZ4 : Arr4 := ⟨1, 1, 3, 4, fun _ _ _ _ => 0⟩

/-- The bias vector `[1, 2, 3, 4]` of the spec's concrete scenario. -/
def exBias4 : Arr1 := ⟨4, fun c => (c + 1 : ℚ)⟩

/-- An all-zero bias vector of length 4. -/
def exBias4z : Arr1 := ⟨4, fun _ => 0⟩

/-- A bias vector of length 2. -/
def exBias2 : Arr1 := ⟨2, fun c => (c + 1 : ℚ)⟩

/-- A bias vector of length 1 with value 5. -/
def exBias1 : Arr1 := ⟨1, fun _ => 5⟩

/-- A 28×28 three-channel batch of two images (the spec's concrete scenario). -/
def exImg28 : Arr4 := ⟨2, 28, 28, 3, fun n i j c => (n + i + j + c : ℚ)⟩

/-- A 4×4 filter bank with three input and four output channels. -/
def exFil44 : Arr4 := ⟨4, 4, 3, 4, fun dh dw c o => (dh + dw + c + o : ℚ)⟩

/-- A bias vector of length 4 matching `exFil44`. -/
def exBias44 : Arr1 := ⟨4, fun c => (c : ℚ)⟩

/-- `exImg1` with different junk outside the in-bounds region. -/
def exImg1junk : Arr4 :=
  ⟨1, 1, 1, 1, fun n i j c => if n = 0 ∧ i = 0 ∧ j = 0 ∧ c = 0 then 3 else 99⟩

/-- `exFil1` with different junk outside the in-bounds region. -/
def exFil1junk : Arr4 :=
  ⟨1, 1, 1, 1, fun dh dw ci co => if dh + dw + ci + co = 0 then 2 else 77⟩

/-- `exBias1` with different junk outside the in-bounds region. -/
def exBias1junk : Arr1 := ⟨1, fun c => if c = 0 then 5 else 88⟩

/-- A 1×1×1×1 `Conv2D` layer with weight 1 and bias 0. -/
def exLayer : Conv2D := ⟨⟨1, 1, 1, 1, fun _ _ _ _ => 1⟩, ⟨1, fun _ => 0⟩, 1, 1⟩

/-- An ambient notebook bias vector `[5]`, different from `exLayer`'s own. -/
def exAmbient : Arr1 := ⟨1, fun _ => 5⟩

/-! ### Arithmetic helper lemmas -/

theorem sumR_congr {n : ℕ} {f g : ℕ → ℚ} (h : ∀ i, i < n → f i = g i) :
    sumR n f = sumR n g := by
  induction n with
  | zero => rfl
  | succ n ih =>
    simp only [sumR, ih fun i hi => h i (Nat.lt_succ_of_lt hi), h n (Nat.lt_succ_self n)]

theorem sumR_zero_fn (n : ℕ) : sumR n (fun _ => (0 : ℚ)) = 0 := by
  induction n with
  | zero => rfl
  | succ n ih => simp [sumR, ih]

theorem sumR_eq_zero {n : ℕ} {f : ℕ → ℚ} (h : ∀ i, i < n → f i = 0) : sumR n f = 0 :=
  (sumR_congr h).trans (sumR_zero_fn n)

theorem bcastDim_self (a : ℕ) : bcastDim a a = some a := by
  simp [bcastDim]

theorem bcastIdx_of_lt {d c : ℕ} (h : c < d) : bcastIdx d c = c := by
  unfold bcastIdx
  split
  · omega
  · rfl

theorem bcastIdx_lt {a b d c : ℕ} (h : bcastDim a b = some d) (hc : c < d) :
    bcastIdx a c < a ∧ bcastIdx b c < b := by
  have hd : (a = b ∧ d = a) ∨ (a = 1 ∧ d = b) ∨ (b = 1 ∧ d = a) := by
    unfold bcastDim at h
    split_ifs at h <;> simp at h <;> omega
  unfold bcastIdx
  split_ifs <;> omega

/-- For `k ≤ x` and a positive stride the Python extent `1 + (x-k)//s`
is the natural number `(x-k)/s + 1`. -/
theorem outExtent_of_le {x k s : ℕ} (hk : k ≤ x) (hs : 1 ≤ s) :
    outExtent x k s = (((x - k) / s + 1 : ℕ) : ℤ) := by
  unfold outExtent
  have hxk : (x : ℤ) - (k : ℤ) = ((x - k : ℕ) : ℤ) := by omega
  rw [hxk, Int.fdiv_eq_ediv _ (by positivity), ← Int.ofNat_ediv]
  push_cast
  ring

theorem outExtent_toNat_of_le {x k s : ℕ} (hk : k ≤ x) (hs : 1 ≤ s) :
    (outExtent x k s).toNat = (x - k) / s + 1 := by
  rw [outExtent_of_le hk hs]
  exact Int.toNat_ofNat _

theorem outExtent_nonneg_of_le {x k s : ℕ} (hk : k ≤ x) (hs : 1 ≤ s) :
    ¬ outExtent x k s < 0 := by
  rw [outExtent_of_le hk hs]
  exact not_lt.mpr (Int.natCast_nonneg _)

/-- A negative extent happens exactly when `k > x + s` (stride positive). -/
theorem outExtent_neg_iff {x k s : ℕ} (hs : 1 ≤ s) :
    outExtent x k s < 0 ↔ x + s < k := by
  unfold outExtent
  have hs0 : (0 : ℤ) < (s : ℤ) := by exact_mod_cast hs
  rw [Int.fdiv_eq_ediv _ (le_of_lt hs0)]
  constructor
  · intro h
    have h2 : ((x : ℤ) - (k : ℤ)) / (s : ℤ) < -1 := by omega
    rw [Int.ediv_lt_iff_lt_mul hs0] at h2
    omega
  · intro h
    have h2 : ((x : ℤ) - (k : ℤ)) < (-1) * (s : ℤ) := by omega
    rw [← Int.ediv_lt_iff_lt_mul hs0] at h2
    omega

/-- The extent is zero exactly when `x < k ≤ x + s`. -/
theorem outExtent_toNat_eq_zero_iff {x k s : ℕ} (hs : 1 ≤ s) :
    ((outExtent x k s).toNat = 0 ∧ ¬ outExtent x k s < 0) ↔ (x < k ∧ k ≤ x + s) := by
  constructor
  · rintro ⟨h0, hneg⟩
    rw [outExtent_neg_iff hs] at hneg
    constructor
    · by_contra hx
      push_neg at hx
      rw [outExtent_toNat_of_le hx hs] at h0
      exact Nat.succ_ne_zero _ h0
    · omega
  · rintro ⟨hx, hxs⟩
    have hneg : ¬ outExtent x k s < 0 := by
      rw [outExtent_neg_iff hs]; omega
    refine ⟨?_, hneg⟩
    unfold outExtent at *
    have hs0 : (0 : ℤ) < (s : ℤ) := by exact_mod_cast hs
    rw [Int.fdiv_eq_ediv _ (le_of_lt hs0)] at *
    have hlt : ((x : ℤ) - (k : ℤ)) / (s : ℤ) < 0 :=
      Int.ediv_neg' (by omega) hs0
    omega

/-- A nonzero output extent forces the filter to fit inside the image. -/
theorem outExtent_toNat_ne_zero {x k s : ℕ} (hs : 1 ≤ s)
    (h : (outExtent x k s).toNat ≠ 0) : k ≤ x := by
  by_contra hx
  push_neg at hx
  by_cases hneg : outExtent x k s < 0
  · exact h (by simp [Int.toNat_of_nonpos (le_of_lt hneg)])
  · exact h ((outExtent_toNat_eq_zero_iff hs).mpr
      ⟨hx, by rw [outExtent_neg_iff hs] at hneg; omega⟩).1

/-- Two axis lengths that differ and are both at least 2 do not broadcast. -/
theorem bcastDim_none {a b : ℕ} (h : a ≠ b) (ha : 2 ≤ a) (hb : 2 ≤ b) :
    bcastDim a b = none := by
  unfold bcastDim
  split_ifs with h1 h2 h3
  · omega
  · omega
  · omega
  · rfl

/-- The bias read index stays in bounds whenever the in-place `+=` accepted
the bias vector. -/
theorem bcastIdx_bias_lt {nb nf ch : ℕ} (h : nb = nf ∨ nb = 1) (hch : ch < nf) :
    bcastIdx nb ch < nb := by
  unfold bcastIdx
  split_ifs <;> omega

/-- All reads `i·s + dh` of the sliding window stay inside the image. -/
theorem read_lt {x k s i dh : ℕ} (hk : k ≤ x)
    (hi : i < (x - k) / s + 1) (hd : dh < k) : i * s + dh < x := by
  have h1 : i ≤ (x - k) / s := by omega
  have h2 : i * s ≤ (x - k) / s * s := Nat.mul_le_mul_right s h1
  have h3 : (x - k) / s * s ≤ x - k := Nat.div_mul_le_self _ _
  omega

/-! ### Normal forms of the variants under the contract preconditions -/

theorem Arr4.EqOn_symm {a b : Arr4} (h : a.EqOn b) : b.EqOn a := by
  obtain ⟨h0, h1, h2, h3, hd⟩ := h
  exact ⟨h0.symm, h1.symm, h2.symm, h3.symm, fun n hn i hi j hj k hk =>
    (hd n (h0 ▸ hn) i (h1 ▸ hi) j (h2 ▸ hj) k (h3 ▸ hk)).symm⟩

theorem Arr4.EqOn_trans {a b c : Arr4} (hab : a.EqOn b) (hbc : b.EqOn c) : a.EqOn c := by
  obtain ⟨h0, h1, h2, h3, hd⟩ := hab
  obtain ⟨g0, g1, g2, g3, gd⟩ := hbc
  exact ⟨h0.trans g0, h1.trans g1, h2.trans g2, h3.trans g3, fun n hn i hi j hj k hk =>
    (hd n hn i hi j hj k hk).trans
      (gd n (h0 ▸ hn) i (h1 ▸ hi) j (h2 ▸ hj) k (h3 ▸ hk))⟩

/-- Under the contract preconditions `filter_image` succeeds, has the spec's
shape, and holds the windowed sum at every in-bounds cell. -/
theorem filter_image_spec (img : Arr3) (filters : Arr4) (sm sn : ℕ)
    (hk1 : filters.d0 ≤ img.d0) (hk2 : filters.d1 ≤ img.d1)
    (hs1 : 1 ≤ sm) (hs2 : 1 ≤ sn) (hc : filters.d2 = img.d2) :
    ∃ y, filter_image img filters sm sn = some y ∧
      y.d0 = (img.d0 - filters.d0) / sm + 1 ∧ y.d1 = (img.d1 - filters.d1) / sn + 1 ∧
      y.d2 = filters.d3 ∧
      ∀ i, i < y.d0 → ∀ j, j < y.d1 → ∀ c, c < y.d2 →
        y.data i j c = sumR filters.d0 fun dh => sumR filters.d1 fun dw =>
          sumR filters.d2 fun ci =>
            filters.data dh dw ci c * img.data (i * sm + dh) (j * sn + dw) ci := by
  have e1 := outExtent_toNat_of_le hk1 hs1
  have e2 := outExtent_toNat_of_le hk2 hs2
  unfold filter_image
  rw [if_neg (not_or.mpr ⟨outExtent_nonneg_of_le hk1 hs1, outExtent_nonneg_of_le hk2 hs2⟩)]
  by_cases h3 : filters.d3 = 0
  · rw [if_pos (Or.inr (Or.inr h3))]
    refine ⟨_, rfl, by rw [e1], by rw [e2], rfl, fun i hi j hj c hcc => ?_⟩
    rw [h3] at hcc
    exact absurd hcc (Nat.not_lt_zero c)
  · have hcond : ¬ ((outExtent img.d0 filters.d0 sm).toNat = 0 ∨
        (outExtent img.d1 filters.d1 sn).toNat = 0 ∨ filters.d3 = 0) := by
      push_neg
      exact ⟨by rw [e1]; exact Nat.succ_ne_zero _, by rw [e2]; exact Nat.succ_ne_zero _, h3⟩
    rw [if_neg hcond, hc, bcastDim_self, Option.map_some']
    refine ⟨_, rfl, by rw [e1], by rw [e2], rfl, fun i hi j hj c hcc => ?_⟩
    exact sumR_congr fun dh hdh => sumR_congr fun dw hdw => sumR_congr fun ci hci => by
      rw [bcastIdx_of_lt hci]

/-- Under the contract preconditions `filter_images_v2` succeeds and refines
the specification's contract `specOutput`. -/
theorem filter_images_v2_spec (images filters : Arr4) (biases : Arr1) (sm sn : ℕ)
    (hk1 : filters.d0 ≤ images.d1) (hk2 : filters.d1 ≤ images.d2)
    (hs1 : 1 ≤ sm) (hs2 : 1 ≤ sn) (hc : filters.d2 = images.d3)
    (hb : biases.d0 = filters.d3) :
    ∃ y, filter_images_v2 images filters biases sm sn = some y ∧
      y.EqOn (specOutput images filters biases sm sn) := by
  have e1 := outExtent_toNat_of_le hk1 hs1
  have e2 := outExtent_toNat_of_le hk2 hs2
  unfold filter_images_v2
  rw [if_neg (not_or.mpr ⟨outExtent_nonneg_of_le hk1 hs1, outExtent_nonneg_of_le hk2 hs2⟩)]
  rw [if_neg (by rw [hc, bcastDim_self]; simp)]
  rw [if_neg (not_not_intro (Or.inl hb))]
  refine ⟨_, rfl, rfl, by rw [e1]; rfl, by rw [e2]; rfl, rfl, fun n hn i hi j hj ch hch => ?_⟩
  show _ + biases.data (bcastIdx biases.d0 ch) = biases.data ch + _
  rw [bcastIdx_of_lt (hb.symm ▸ hch), add_comm]
  congr 1
  refine sumR_congr fun dh hdh => sumR_congr fun dw hdw => ?_
  rw [hc, bcastDim_self]
  simp only [Option.getD_some]
  exact sumR_congr fun ci hci => by rw [bcastIdx_of_lt hci]; exact mul_comm _ _

/-- Under the contract preconditions `filter_images_v3` succeeds and refines
the specification's contract `specOutput`. -/
theorem filter_images_v3_spec (images filters : Arr4) (biases : Arr1) (sm sn : ℕ)
    (hk1 : filters.d0 ≤ images.d1) (hk2 : filters.d1 ≤ images.d2)
    (hs1 : 1 ≤ sm) (hs2 : 1 ≤ sn) (hc : filters.d2 = images.d3)
    (hb : biases.d0 = filters.d3) :
    ∃ y, filter_images_v3 images filters biases sm sn = some y ∧
      y.EqOn (specOutput images filters biases sm sn) := by
  have e1 := outExtent_toNat_of_le hk1 hs1
  have e2 := outExtent_toNat_of_le hk2 hs2
  unfold filter_images_v3
  rw [if_neg (not_or.mpr ⟨outExtent_nonneg_of_le hk1 hs1, outExtent_nonneg_of_le hk2 hs2⟩)]
  rw [if_neg fun h => absurd h.2.2.2.2.2.2 (by omega)]
  rw [if_neg (not_not_intro (Or.inl hb))]
  refine ⟨_, rfl, rfl, by rw [e1]; rfl, by rw [e2]; rfl, rfl, fun n hn i hi j hj ch hch => ?_⟩
  show _ + biases.data (bcastIdx biases.d0 ch) = biases.data ch + _
  rw [bcastIdx_of_lt (hb.symm ▸ hch), add_comm]

/-- Under the contract preconditions and a nonempty batch,
`filter_images_v1` succeeds with a rank-4 result refining `specOutput`. -/
theorem filter_images_v1_spec (batch filters : Arr4) (biases : Arr1) (sm sn : ℕ)
    (hB : batch.d0 ≠ 0) (hk1 : filters.d0 ≤ batch.d1) (hk2 : filters.d1 ≤ batch.d2)
    (hs1 : 1 ≤ sm) (hs2 : 1 ≤ sn) (hc : filters.d2 = batch.d3)
    (hb : biases.d0 = filters.d3) :
    ∃ y, filter_images_v1 batch filters biases sm sn = some (Sum.inl y) ∧
      y.EqOn (specOutput batch filters biases sm sn) := by
  unfold filter_images_v1
  rw [if_neg hB]
  obtain ⟨y0, hy0, hd0, hd1, hd2, -⟩ :=
    filter_image_spec (batchImage batch 0) filters sm sn hk1 hk2 hs1 hs2 hc
  simp only [batchImage] at hd0 hd1
  rw [hy0, Option.some_bind, hd2, hb.symm, bcastDim_self, Option.map_some']
  refine ⟨_, rfl, rfl, hd0, hd1, hb, ?_⟩
  intro n hn i hi j hj c hcc
  dsimp only at hn hi hj hcc ⊢
  obtain ⟨yn, hyn, hn0, hn1, hn2, hndata⟩ :=
    filter_image_spec (batchImage batch n) filters sm sn hk1 hk2 hs1 hs2 hc
  simp only [batchImage] at hn0 hn1
  rw [hyn]
  show yn.data i j (bcastIdx biases.d0 c) + biases.data (bcastIdx biases.d0 c) = _
  rw [bcastIdx_of_lt hcc]
  rw [hndata i (by rw [hn0, ← hd0]; exact hi) j (by rw [hn1, ← hd1]; exact hj) c
    (by rw [hn2, ← hb]; exact hcc)]
  show _ = biases.data c + _
  rw [add_comm]
  congr 1
  exact sumR_congr fun dh hdh => sumR_congr fun dw hdw => sumR_congr fun ci hci =>
    mul_comm _ _

/-- The dimensions of any successful `filter_image` result. -/
theorem filter_image_dims {img : Arr3} {filters : Arr4} {sm sn : ℕ} {y : Arr3}
    (h : filter_image img filters sm sn = some y) :
    y.d0 = (outExtent img.d0 filters.d0 sm).toNat ∧
    y.d1 = (outExtent img.d1 filters.d1 sn).toNat ∧ y.d2 = filters.d3 := by
  unfold filter_image at h
  split_ifs at h
  · rw [Option.some.injEq] at h
    rw [← h]
    exact ⟨rfl, rfl, rfl⟩
  · rcases hbc : bcastDim filters.d2 img.d2 with _ | nc <;> rw [hbc] at h
    · exact absurd h (by simp)
    · rw [Option.map_some', Option.some.injEq] at h
      rw [← h]
      exact ⟨rfl, rfl, rfl⟩

/-- With a nonempty output grid, at least one output channel, and
incompatible channel axes, `filter_image` raises at the broadcast multiply. -/
theorem filter_image_none_of_mismatch (img : Arr3) (filters : Arr4) (sm sn : ℕ)
    (hk1 : filters.d0 ≤ img.d0) (hk2 : filters.d1 ≤ img.d1)
    (hs1 : 1 ≤ sm) (hs2 : 1 ≤ sn) (hf : filters.d3 ≠ 0)
    (hcc : bcastDim filters.d2 img.d2 = none) :
    filter_image img filters sm sn = none := by
  have e1 := outExtent_toNat_of_le hk1 hs1
  have e2 := outExtent_toNat_of_le hk2 hs2
  unfold filter_image
  rw [if_neg (not_or.mpr ⟨outExtent_nonneg_of_le hk1 hs1, outExtent_nonneg_of_le hk2 hs2⟩)]
  rw [if_neg (by push_neg; exact ⟨by rw [e1]; exact Nat.succ_ne_zero _,
    by rw [e2]; exact Nat.succ_ne_zero _, hf⟩)]
  rw [hcc]
  rfl

/-- A negative output extent makes `filter_image` raise at `np.zeros`. -/
theorem filter_image_none_of_neg (img : Arr3) (filters : Arr4) (sm sn : ℕ)
    (h : outExtent img.d0 filters.d0 sm < 0 ∨ outExtent img.d1 filters.d1 sn < 0) :
    filter_image img filters sm sn = none := by
  unfold filter_image
  rw [if_pos h]

/-! ### The claims -/

/-- C1 (amended: the batch holds at least one image): for every image batch of
shape (batch,H,W,Cin) with batch ≥ 1, filter bank (kH,kW,Cin,Cout), bias
vector of length Cout, strides ≥ 1 with kH ≤ H and kW ≤ W, each of
`filter_images_v1`, `filter_images_v2` and `filter_images_v3` returns an
output batch equal (shape and every in-bounds element) to the contract
`specOutput`, i.e. `output[n,i,j,c] = bias[c] + Σ image·filter`. -/
theorem claim1_conv_formula (images filters : Arr4) (biases : Arr1) (sm sn : ℕ)
    (hB : 1 ≤ images.d0)
    (hk1 : filters.d0 ≤ images.d1) (hk2 : filters.d1 ≤ images.d2)
    (hs1 : 1 ≤ sm) (hs2 : 1 ≤ sn) (hc : filters.d2 = images.d3)
    (hb : biases.d0 = filters.d3) :
    (∃ y, filter_images_v1 images filters biases sm sn = some (Sum.inl y) ∧
      y.EqOn (specOutput images filters biases sm sn)) ∧
    (∃ y, filter_images_v2 images filters biases sm sn = some y ∧
      y.EqOn (specOutput images filters biases sm sn)) ∧
    (∃ y, filter_images_v3 images filters biases sm sn = some y ∧
      y.EqOn (specOutput images filters biases sm sn)) :=
  ⟨filter_images_v1_spec images filters biases sm sn (by omega) hk1 hk2 hs1 hs2 hc hb,
   filter_images_v2_spec images filters biases sm sn hk1 hk2 hs1 hs2 hc hb,
   filter_images_v3_spec images filters biases sm sn hk1 hk2 hs1 hs2 hc hb⟩

/-- C1 counterexample: on the empty batch every precondition of the claim
holds (channels match, bias length equals Cout = 2, stride 1, 1 = kH ≤ H = 1),
yet `filter_images_v1` raises — the empty list comprehension makes
`np.array([])` of shape (0,), which does not broadcast against the length-2
bias vector — instead of returning an output batch. -/
theorem claim1_counterexample :
    exFil.d0 ≤ exImg0.d1 ∧ exFil.d1 ≤ exImg0.d2 ∧ exFil.d2 = exImg0.d3 ∧
      exBias2.d0 = exFil.d3 ∧
      filter_images_v1 exImg0 exFil exBias2 1 1 = none :=
  ⟨by decide, by decide, by decide, by decide, rfl⟩

/-- C1 witness at a concrete 1×1×1×1 input. -/
theorem claim1_conv_formula_witness :
    (∃ y, filter_images_v1 exImg1 exFil1 exBias1 1 1 = some (Sum.inl y) ∧
      y.EqOn (specOutput exImg1 exFil1 exBias1 1 1)) ∧
    (∃ y, filter_images_v2 exImg1 exFil1 exBias1 1 1 = some y ∧
      y.EqOn (specOutput exImg1 exFil1 exBias1 1 1)) ∧
    (∃ y, filter_images_v3 exImg1 exFil1 exBias1 1 1 = some y ∧
      y.EqOn (specOutput exImg1 exFil1 exBias1 1 1)) :=
  claim1_conv_formula exImg1 exFil1 exBias1 1 1 (by decide) (by decide) (by decide)
    (by decide) (by decide) (by decide) (by decide)

/-- C2 (amended: the batch holds at least one image): under the contract
preconditions the three variants succeed and produce results that are equal
to each other — exactly, over exact arithmetic. -/
theorem claim2_variants_agree (images filters : Arr4) (biases : Arr1) (sm sn : ℕ)
    (hB : 1 ≤ images.d0)
    (hk1 : filters.d0 ≤ images.d1) (hk2 : filters.d1 ≤ images.d2)
    (hs1 : 1 ≤ sm) (hs2 : 1 ≤ sn) (hc : filters.d2 = images.d3)
    (hb : biases.d0 = filters.d3) :
    ∃ y1 y2 y3, filter_images_v1 images filters biases sm sn = some (Sum.inl y1) ∧
      filter_images_v2 images filters biases sm sn = some y2 ∧
      filter_images_v3 images filters biases sm sn = some y3 ∧
      y1.EqOn y2 ∧ y2.EqOn y3 ∧ y1.EqOn y3 := by
  obtain ⟨y1, h1, e1⟩ :=
    filter_images_v1_spec images filters biases sm sn (by omega) hk1 hk2 hs1 hs2 hc hb
  obtain ⟨y2, h2, e2⟩ := filter_images_v2_spec images filters biases sm sn hk1 hk2 hs1 hs2 hc hb
  obtain ⟨y3, h3, e3⟩ := filter_images_v3_spec images filters biases sm sn hk1 hk2 hs1 hs2 hc hb
  exact ⟨y1, y2, y3, h1, h2, h3, Arr4.EqOn_trans e1 (Arr4.EqOn_symm e2),
    Arr4.EqOn_trans e2 (Arr4.EqOn_symm e3), Arr4.EqOn_trans e1 (Arr4.EqOn_symm e3)⟩

/-- C2 counterexample: on the empty batch (which satisfies every listed
precondition: matching channel counts, bias length = Cout, strides ≥ 1,
kH ≤ H, kW ≤ W) `filter_images_v1` raises while `filter_images_v2` returns,
so the three variants do not all produce results. -/
theorem claim2_counterexample :
    exFil.d0 ≤ exImg0.d1 ∧ exFil.d1 ≤ exImg0.d2 ∧ exFil.d2 = exImg0.d3 ∧
      exBias2.d0 = exFil.d3 ∧
      filter_images_v1 exImg0 exFil exBias2 1 1 = none ∧
      (filter_images_v2 exImg0 exFil exBias2 1 1).isSome = true :=
  ⟨by decide, by decide, by decide, by decide, rfl, by decide⟩

/-- C2 witness at a concrete 1×1×1×1 input. -/
theorem claim2_variants_agree_witness :
    ∃ y1 y2 y3, filter_images_v1 exImg1 exFil1 exBias1 1 1 = some (Sum.inl y1) ∧
      filter_images_v2 exImg1 exFil1 exBias1 1 1 = some y2 ∧
      filter_images_v3 exImg1 exFil1 exBias1 1 1 = some y3 ∧
      y1.EqOn y2 ∧ y2.EqOn y3 ∧ y1.EqOn y3 :=
  claim2_variants_agree exImg1 exFil1 exBias1 1 1 (by decide) (by decide) (by decide)
    (by decide) (by decide) (by decide) (by decide)

/-- C3: under the contract preconditions the output batch returned by each
variant has spatial size ((H−kH)/sH + 1, (W−kW)/sW + 1) and channel count
Cout (for `filter_images_v1` an output batch exists once the batch is
nonempty). -/
theorem claim3_shape_law (images filters : Arr4) (biases : Arr1) (sm sn : ℕ)
    (hk1 : filters.d0 ≤ images.d1) (hk2 : filters.d1 ≤ images.d2)
    (hs1 : 1 ≤ sm) (hs2 : 1 ≤ sn) (hc : filters.d2 = images.d3)
    (hb : biases.d0 = filters.d3) :
    (1 ≤ images.d0 → ∃ y, filter_images_v1 images filters biases sm sn = some (Sum.inl y) ∧
      y.d0 = images.d0 ∧ y.d1 = (images.d1 - filters.d0) / sm + 1 ∧
      y.d2 = (images.d2 - filters.d1) / sn + 1 ∧ y.d3 = filters.d3) ∧
    (∃ y, filter_images_v2 images filters biases sm sn = some y ∧
      y.d0 = images.d0 ∧ y.d1 = (images.d1 - filters.d0) / sm + 1 ∧
      y.d2 = (images.d2 - filters.d1) / sn + 1 ∧ y.d3 = filters.d3) ∧
    (∃ y, filter_images_v3 images filters biases sm sn = some y ∧
      y.d0 = images.d0 ∧ y.d1 = (images.d1 - filters.d0) / sm + 1 ∧
      y.d2 = (images.d2 - filters.d1) / sn + 1 ∧ y.d3 = filters.d3) := by
  refine ⟨fun hB => ?_, ?_, ?_⟩
  · obtain ⟨y, h, e0, e1, e2, e3, -⟩ :=
      filter_images_v1_spec images filters biases sm sn (by omega) hk1 hk2 hs1 hs2 hc hb
    exact ⟨y, h, e0, e1, e2, e3⟩
  · obtain ⟨y, h, e0, e1, e2, e3, -⟩ :=
      filter_images_v2_spec images filters biases sm sn hk1 hk2 hs1 hs2 hc hb
    exact ⟨y, h, e0, e1, e2, e3⟩
  · obtain ⟨y, h, e0, e1, e2, e3, -⟩ :=
      filter_images_v3_spec images filters biases sm sn hk1 hk2 hs1 hs2 hc hb
    exact ⟨y, h, e0, e1, e2, e3⟩

/-- C3 witness: the spec's concrete scenario — image batch (2,28,28,3),
filter bank (4,4,3,4), stride (1,1) give output shape (2,25,25,4). -/
theorem claim3_shape_law_witness :
    ∃ y, filter_images_v2 exImg28 exFil44 exBias44 1 1 = some y ∧
      y.d0 = 2 ∧ y.d1 = 25 ∧ y.d2 = 25 ∧ y.d3 = 4 := by
  obtain ⟨-, ⟨y, h, e0, e1, e2, e3⟩, -⟩ :=
    claim3_shape_law exImg28 exFil44 exBias44 1 1 (by decide) (by decide) (by decide)
      (by decide) (by decide) (by decide)
  exact ⟨y, h, e0, by rw [e1]; decide, by rw [e2]; decide, e3⟩

/-- C9: on an empty image batch with otherwise valid inputs
`filter_images_v2` completes without error and returns an output batch of
shape (0, (H−kH)/sH + 1, (W−kW)/sW + 1, Cout). -/
theorem claim9_empty_batch (images filters : Arr4) (biases : Arr1) (sm sn : ℕ)
    (hB : images.d0 = 0)
    (hk1 : filters.d0 ≤ images.d1) (hk2 : filters.d1 ≤ images.d2)
    (hs1 : 1 ≤ sm) (hs2 : 1 ≤ sn) (hc : filters.d2 = images.d3)
    (hb : biases.d0 = filters.d3) :
    ∃ y, filter_images_v2 images filters biases sm sn = some y ∧
      y.d0 = 0 ∧ y.d1 = (images.d1 - filters.d0) / sm + 1 ∧
      y.d2 = (images.d2 - filters.d1) / sn + 1 ∧ y.d3 = filters.d3 := by
  obtain ⟨y, h, e0, e1, e2, e3, -⟩ :=
    filter_images_v2_spec images filters biases sm sn hk1 hk2 hs1 hs2 hc hb
  exact ⟨y, h, by rw [e0]; exact hB, e1, e2, e3⟩

/-- C9 witness at the concrete empty batch. -/
theorem claim9_empty_batch_witness :
    ∃ y, filter_images_v2 exImg0 exFil exBias2 1 1 = some y ∧
      y.d0 = 0 ∧ y.d1 = 1 ∧ y.d2 = 1 ∧ y.d3 = 2 :=
  claim9_empty_batch exImg0 exFil exBias2 1 1 (by decide) (by decide) (by decide)
    (by decide) (by decide) (by decide) (by decide)

/-- C10: a concrete input whose image channel count (3) differs from the
filter bank's input-channel count (1), yet `filter_image` completes without
error and returns an array of the normal output shape (outH, outW, Cout) =
(2, 2, 2): the size-1 channel axis of the filter slice broadcasts against the
image chunk instead of failing. -/
theorem claim10_broadcast_escape :
    exImg3.d2 ≠ exFil.d2 ∧ exFil.d2 = 1 ∧
      (filter_image exImg3 exFil 1 1).map (fun y => (y.d0, y.d1, y.d2)) = some (2, 2, 2) :=
  ⟨by decide, by decide, by decide⟩

/-- C6: `Conv2D.__call__` as written adds the ambient notebook variable
`biases`, not the layer's own `self.biases`. With `exLayer` (own bias 0,
weight 1) and ambient vector `[5]` on the 1×1 input with pixel value 3, the
code returns 3·1 + 5 = 8, while the §4.1 contract value (convolution plus
the layer's own bias) is 3·1 + 0 = 3: the result depends on a variable
outside the layer object and its argument. -/
theorem claim6_ambient_bias_bug :
    (Conv2D.call exLayer exAmbient exImg1).map (fun y => y.data 0 0 0 0) = some 8 ∧
      (Conv2D.contractCall exLayer exImg1).data 0 0 0 0 = 3 ∧
      exLayer.biases.data 0 = 0 ∧ exAmbient.data 0 = 5 := by
  refine ⟨?_, ?_, rfl, rfl⟩
  · simp only [Conv2D.call, conv_general_dilated_valid, exLayer, exAmbient, exImg1, bcastDim,
      bcastIdx, outExtent]
    norm_num [sumR]
  · simp only [Conv2D.contractCall, conv_general_dilated_valid, exLayer, exImg1]
    norm_num [sumR]

/-- C7: for fixed in-bounds n, i, j, c the value `output[n,i,j,c] − bias[c]`
does not depend on which length-Cout bias vector the variant was called with
(bias is purely additive and indexed only by output channel); and with an
all-zero filter bank every output element equals its channel's bias value,
independently of the image batch. -/
theorem claim7_bias_additive (images filters : Arr4) (b1 b2 : Arr1) (sm sn : ℕ)
    (hB : 1 ≤ images.d0)
    (hk1 : filters.d0 ≤ images.d1) (hk2 : filters.d1 ≤ images.d2)
    (hs1 : 1 ≤ sm) (hs2 : 1 ≤ sn) (hc : filters.d2 = images.d3)
    (hb1 : b1.d0 = filters.d3) (hb2 : b2.d0 = filters.d3) :
    (∀ y1 y2, filter_images_v1 images filters b1 sm sn = some (Sum.inl y1) →
      filter_images_v1 images filters b2 sm sn = some (Sum.inl y2) →
      ∀ n, n < y1.d0 → ∀ i, i < y1.d1 → ∀ j, j < y1.d2 → ∀ c, c < y1.d3 →
        y1.data n i j c - b1.data c = y2.data n i j c - b2.data c) ∧
    (∀ y1 y2, filter_images_v2 images filters b1 sm sn = some y1 →
      filter_images_v2 images filters b2 sm sn = some y2 →
      ∀ n, n < y1.d0 → ∀ i, i < y1.d1 → ∀ j, j < y1.d2 → ∀ c, c < y1.d3 →
        y1.data n i j c - b1.data c = y2.data n i j c - b2.data c) ∧
    (∀ y1 y2, filter_images_v3 images filters b1 sm sn = some y1 →
      filter_images_v3 images filters b2 sm sn = some y2 →
      ∀ n, n < y1.d0 → ∀ i, i < y1.d1 → ∀ j, j < y1.d2 → ∀ c, c < y1.d3 →
        y1.data n i j c - b1.data c = y2.data n i j c - b2.data c) ∧
    ((∀ dh dw ci c, filters.data dh dw ci c = 0) →
      ∀ y, filter_images_v2 images filters b1 sm sn = some y →
        ∀ n, n < y.d0 → ∀ i, i < y.d1 → ∀ j, j < y.d2 → ∀ c, c < y.d3 →
          y.data n i j c = b1.data c) := by
  obtain ⟨yA, hA, eA0, eA1, eA2, eA3, eAd⟩ :=
    filter_images_v1_spec images filters b1 sm sn (by omega) hk1 hk2 hs1 hs2 hc hb1
  obtain ⟨yB, hB2, eB0, eB1, eB2, eB3, eBd⟩ :=
    filter_images_v1_spec images filters b2 sm sn (by omega) hk1 hk2 hs1 hs2 hc hb2
  obtain ⟨yC, hC, eC0, eC1, eC2, eC3, eCd⟩ :=
    filter_images_v2_spec images filters b1 sm sn hk1 hk2 hs1 hs2 hc hb1
  obtain ⟨yD, hD, eD0, eD1, eD2, eD3, eDd⟩ :=
    filter_images_v2_spec images filters b2 sm sn hk1 hk2 hs1 hs2 hc hb2
  obtain ⟨yE, hE, eE0, eE1, eE2, eE3, eEd⟩ :=
    filter_images_v3_spec images filters b1 sm sn hk1 hk2 hs1 hs2 hc hb1
  obtain ⟨yF, hF, eF0, eF1, eF2, eF3, eFd⟩ :=
    filter_images_v3_spec images filters b2 sm sn hk1 hk2 hs1 hs2 hc hb2
  have key : ∀ n i j c,
      (specOutput images filters b1 sm sn).data n i j c - b1.data c =
      (specOutput images filters b2 sm sn).data n i j c - b2.data c := by
    intro n i j c
    simp only [specOutput]
    ring
  refine ⟨?_, ?_, ?_, ?_⟩
  · intro y1 y2 h1 h2 n hn i hi j hj c hcv
    rw [hA, Option.some.injEq, Sum.inl.injEq] at h1
    rw [hB2, Option.some.injEq, Sum.inl.injEq] at h2
    subst h1
    subst h2
    rw [eAd n hn i hi j hj c hcv]
    rw [eBd n (by rw [eB0]; exact eA0 ▸ hn) i (by rw [eB1]; exact eA1 ▸ hi)
      j (by rw [eB2]; exact eA2 ▸ hj) c (by rw [eB3]; exact eA3 ▸ hcv)]
    exact key n i j c
  · intro y1 y2 h1 h2 n hn i hi j hj c hcv
    rw [hC, Option.some.injEq] at h1
    rw [hD, Option.some.injEq] at h2
    subst h1
    subst h2
    rw [eCd n hn i hi j hj c hcv]
    rw [eDd n (by rw [eD0]; exact eC0 ▸ hn) i (by rw [eD1]; exact eC1 ▸ hi)
      j (by rw [eD2]; exact eC2 ▸ hj) c (by rw [eD3]; exact eC3 ▸ hcv)]
    exact key n i j c
  · intro y1 y2 h1 h2 n hn i hi j hj c hcv
    rw [hE, Option.some.injEq] at h1
    rw [hF, Option.some.injEq] at h2
    subst h1
    subst h2
    rw [eEd n hn i hi j hj c hcv]
    rw [eFd n (by rw [eF0]; exact eE0 ▸ hn) i (by rw [eF1]; exact eE1 ▸ hi)
      j (by rw [eF2]; exact eE2 ▸ hj) c (by rw [eF3]; exact eE3 ▸ hcv)]
    exact key n i j c
  · intro hz y h1 n hn i hi j hj c hcv
    rw [hC, Option.some.injEq] at h1
    subst h1
    rw [eCd n hn i hi j hj c hcv]
    show b1.data c + _ = b1.data c
    rw [sumR_eq_zero fun dh hdh => sumR_eq_zero fun dw hdw => sumR_eq_zero fun ci hci => by
      rw [hz, mul_zero], add_zero]

/-- C7 witness: the spec's concrete scenario — an all-zero filter bank with
bias vector [1,2,3,4]; instantiates the theorem at `exImgC3`/`exFilZ4` with
the two bias vectors [1,2,3,4] and all-zero. -/
theorem claim7_bias_additive_witness :
    (∀ y1 y2, filter_images_v1 exImgC3 exFilZ4 exBias4 1 1 = some (Sum.inl y1) →
      filter_images_v1 exImgC3 exFilZ4 exBias4z 1 1 = some (Sum.inl y2) →
      ∀ n, n < y1.d0 → ∀ i, i < y1.d1 → ∀ j, j < y1.d2 → ∀ c, c < y1.d3 →
        y1.data n i j c - exBias4.data c = y2.data n i j c - exBias4z.data c) ∧
    (∀ y1 y2, filter_images_v2 exImgC3 exFilZ4 exBias4 1 1 = some y1 →
      filter_images_v2 exImgC3 exFilZ4 exBias4z 1 1 = some y2 →
      ∀ n, n < y1.d0 → ∀ i, i < y1.d1 → ∀ j, j < y1.d2 → ∀ c, c < y1.d3 →
        y1.data n i j c - exBias4.data c = y2.data n i j c - exBias4z.data c) ∧
    (∀ y1 y2, filter_images_v3 exImgC3 exFilZ4 exBias4 1 1 = some y1 →
      filter_images_v3 exImgC3 exFilZ4 exBias4z 1 1 = some y2 →
      ∀ n, n < y1.d0 → ∀ i, i < y1.d1 → ∀ j, j < y1.d2 → ∀ c, c < y1.d3 →
        y1.data n i j c - exBias4.data c = y2.data n i j c - exBias4z.data c) ∧
    ((∀ dh dw ci c, exFilZ4.data dh dw ci c = 0) →
      ∀ y, filter_images_v2 exImgC3 exFilZ4 exBias4 1 1 = some y →
        ∀ n, n < y.d0 → ∀ i, i < y.d1 → ∀ j, j < y.d2 → ∀ c, c < y.d3 →
          y.data n i j c = exBias4.data c) := by
  have hz : exFilZ4.d2 = exImgC3.d3 := by decide
  exact claim7_bias_additive exImgC3 exFilZ4 exBias4 exBias4z 1 1 (by decide) (by decide)
    (by decide) (by decide) (by decide) hz (by decide) (by decide)

/-- C4 counterexample: the image has 3 input channels, the filter bank has 1,
and the bias length matches Cout; every variant completes and returns an
array (numpy broadcasts the size-1 channel axis for v1/v2, and v3's scalar
loop only indexes the filter's channel range) instead of failing. -/
theorem claim4_counterexample :
    exImgC3.d3 ≠ exFil.d2 ∧ exBias2.d0 = exFil.d3 ∧
      (filter_images_v1 exImgC3 exFil exBias2 1 1).isSome = true ∧
      (filter_images_v2 exImgC3 exFil exBias2 1 1).isSome = true ∧
      (filter_images_v3 exImgC3 exFil exBias2 1 1).isSome = true := by
  refine ⟨by decide, by decide, by decide, by decide, by decide⟩

/-- C4 (amended): the failures happen exactly where numpy cannot broadcast:
with a nonempty batch, valid geometry and Cout ≥ 1, (a) `filter_images_v1`
and `filter_images_v2` fail when the two channel counts differ and are both
≥ 2; (b) `filter_images_v3` fails when the filter bank's channel count
exceeds the image's (its scalar loop indexes past the image's channel axis);
(c) all three fail when, channels matching, the bias length differs from
Cout and both are ≥ 2. -/
theorem claim4_failfast_amended (images filters : Arr4) (biases : Arr1) (sm sn : ℕ)
    (hB : 1 ≤ images.d0) (hk1 : filters.d0 ≤ images.d1) (hk2 : filters.d1 ≤ images.d2)
    (hs1 : 1 ≤ sm) (hs2 : 1 ≤ sn) (hf : 1 ≤ filters.d3) :
    (filters.d2 ≠ images.d3 → 2 ≤ filters.d2 → 2 ≤ images.d3 →
      filter_images_v1 images filters biases sm sn = none ∧
      filter_images_v2 images filters biases sm sn = none) ∧
    (1 ≤ filters.d0 → 1 ≤ filters.d1 → images.d3 < filters.d2 →
      filter_images_v3 images filters biases sm sn = none) ∧
    (filters.d2 = images.d3 → biases.d0 ≠ filters.d3 → 2 ≤ biases.d0 → 2 ≤ filters.d3 →
      filter_images_v1 images filters biases sm sn = none ∧
      filter_images_v2 images filters biases sm sn = none ∧
      filter_images_v3 images filters biases sm sn = none) := by
  have e1 := outExtent_toNat_of_le hk1 hs1
  have e2 := outExtent_toNat_of_le hk2 hs2
  have hnn := not_or.mpr ⟨outExtent_nonneg_of_le hk1 hs1, outExtent_nonneg_of_le hk2 hs2⟩
  refine ⟨fun hne h2f h2i => ⟨?_, ?_⟩, fun hkm hkn hlt => ?_,
    fun hceq hbne h2b h2f => ⟨?_, ?_, ?_⟩⟩
  · unfold filter_images_v1
    rw [if_neg (by omega)]
    rw [filter_image_none_of_mismatch (batchImage images 0) filters sm sn hk1 hk2 hs1 hs2
      (by omega) (bcastDim_none hne h2f h2i)]
    rfl
  · unfold filter_images_v2
    rw [if_neg hnn]
    rw [if_pos ⟨by push_neg; exact ⟨by rw [e1]; exact Nat.succ_ne_zero _,
      by rw [e2]; exact Nat.succ_ne_zero _, by omega⟩, bcastDim_none hne h2f h2i⟩]
  · unfold filter_images_v3
    rw [if_neg hnn]
    rw [if_pos ⟨by rw [e1]; exact Nat.succ_ne_zero _, by rw [e2]; exact Nat.succ_ne_zero _,
      by omega, by omega, by omega, by omega, hlt⟩]
  · unfold filter_images_v1
    rw [if_neg (by omega)]
    obtain ⟨y0, hy0, -, -, hd2, -⟩ :=
      filter_image_spec (batchImage images 0) filters sm sn hk1 hk2 hs1 hs2 hceq
    rw [hy0, Option.some_bind, hd2, bcastDim_none (by omega) h2f h2b]
    rfl
  · unfold filter_images_v2
    rw [if_neg hnn]
    rw [if_neg (by rw [hceq, bcastDim_self]; simp)]
    rw [if_pos (by push_neg; exact ⟨hbne, by omega⟩)]
  · unfold filter_images_v3
    rw [if_neg hnn]
    rw [if_neg fun h => absurd h.2.2.2.2.2.2 (by omega)]
    rw [if_pos (by push_neg; exact ⟨hbne, by omega⟩)]

/-- C4 witness: image with 2 channels against a filter bank with 3; parts (a)
and (b) of the amended claim make all three variants fail on it. -/
theorem claim4_failfast_amended_witness :
    filter_images_v1 exImgC2 exFilN3 exBias2 1 1 = none ∧
    filter_images_v2 exImgC2 exFilN3 exBias2 1 1 = none ∧
    filter_images_v3 exImgC2 exFilN3 exBias2 1 1 = none := by
  have h := claim4_failfast_amended exImgC2 exFilN3 exBias2 1 1 (by decide) (by decide)
    (by decide) (by decide) (by decide) (by decide)
  exact ⟨(h.1 (by decide) (by decide) (by decide)).1,
    (h.1 (by decide) (by decide) (by decide)).2,
    h.2.1 (by decide) (by decide) (by decide)⟩

/-- C5 counterexample: kH = 2 exceeds H = 1, so the output extent
1 + (H−kH)//sH = 0 is non-positive, yet every variant completes and returns
an (empty) array — `np.zeros` only rejects negative extents. -/
theorem claim5_counterexample :
    exImgH1.d1 < exFilK2.d0 ∧ exFilK2.d1 ≤ exImgH1.d2 ∧ exFilK2.d2 = exImgH1.d3 ∧
      exBias1.d0 = exFilK2.d3 ∧
      (filter_images_v1 exImgH1 exFilK2 exBias1 1 1).isSome = true ∧
      (filter_images_v2 exImgH1 exFilK2 exBias1 1 1).isSome = true ∧
      (filter_images_v3 exImgH1 exFilK2 exBias1 1 1).isSome = true := by
  refine ⟨by decide, by decide, by decide, by decide, by decide, by decide, by decide⟩

/-- C5 (amended): with a nonempty batch, positive strides and matching
channel/bias lengths, each variant fails exactly when an output extent is
negative, i.e. kH > H + sH or kW > W + sW; when the row extent is zero
(H < kH ≤ H + sH, the other axis valid) each variant instead returns an
output batch with zero rows. -/
theorem claim5_geometry_amended (images filters : Arr4) (biases : Arr1) (sm sn : ℕ)
    (hB : 1 ≤ images.d0) (hs1 : 1 ≤ sm) (hs2 : 1 ≤ sn)
    (hc : filters.d2 = images.d3) (hb : biases.d0 = filters.d3) :
    (images.d1 + sm < filters.d0 ∨ images.d2 + sn < filters.d1 →
      filter_images_v1 images filters biases sm sn = none ∧
      filter_images_v2 images filters biases sm sn = none ∧
      filter_images_v3 images filters biases sm sn = none) ∧
    (images.d1 < filters.d0 → filters.d0 ≤ images.d1 + sm → filters.d1 ≤ images.d2 →
      (∃ y, filter_images_v1 images filters biases sm sn = some (Sum.inl y) ∧ y.d1 = 0) ∧
      (∃ y, filter_images_v2 images filters biases sm sn = some y ∧ y.d1 = 0) ∧
      (∃ y, filter_images_v3 images filters biases sm sn = some y ∧ y.d1 = 0)) := by
  constructor
  · intro h
    have hneg : outExtent images.d1 filters.d0 sm < 0 ∨
        outExtent images.d2 filters.d1 sn < 0 := by
      rcases h with h | h
      · exact Or.inl ((outExtent_neg_iff hs1).mpr h)
      · exact Or.inr ((outExtent_neg_iff hs2).mpr h)
    refine ⟨?_, ?_, ?_⟩
    · unfold filter_images_v1
      rw [if_neg (by omega), filter_image_none_of_neg (batchImage images 0) filters sm sn hneg]
      rfl
    · unfold filter_images_v2
      rw [if_pos hneg]
    · unfold filter_images_v3
      rw [if_pos hneg]
  · intro h1 h2 hkW
    have hz := (outExtent_toNat_eq_zero_iff hs1).mpr ⟨h1, h2⟩
    have hnn2 := outExtent_nonneg_of_le hkW hs2
    refine ⟨?_, ?_, ?_⟩
    · unfold filter_images_v1
      rw [if_neg (by omega)]
      have hfi : filter_image (batchImage images 0) filters sm sn =
          some ⟨(outExtent images.d1 filters.d0 sm).toNat,
            (outExtent images.d2 filters.d1 sn).toNat, filters.d3, fun _ _ _ => 0⟩ := by
        unfold filter_image
        simp only [batchImage]
        rw [if_neg (not_or.mpr ⟨hz.2, hnn2⟩), if_pos (Or.inl hz.1)]
      rw [hfi, Option.some_bind]
      dsimp only
      rw [← hb, bcastDim_self, Option.map_some']
      exact ⟨_, rfl, hz.1⟩
    · unfold filter_images_v2
      rw [if_neg (not_or.mpr ⟨hz.2, hnn2⟩)]
      rw [if_neg fun hcond => hcond.1 (Or.inl hz.1)]
      rw [if_neg (not_not_intro (Or.inl hb))]
      exact ⟨_, rfl, hz.1⟩
    · unfold filter_images_v3
      rw [if_neg (not_or.mpr ⟨hz.2, hnn2⟩)]
      rw [if_neg fun hcond => hcond.1 hz.1]
      rw [if_neg (not_not_intro (Or.inl hb))]
      exact ⟨_, rfl, hz.1⟩

/-- C5 witness: on the 1×2 image, the 3×1 filter (kH = 3 > H + sH = 2) makes
the variants fail, while the 2×1 filter (zero extent) returns an output with
zero rows. -/
theorem claim5_geometry_amended_witness :
    (filter_images_v2 exImgH1 exFilK3 exBias1 1 1 = none ∧
      filter_images_v3 exImgH1 exFilK3 exBias1 1 1 = none) ∧
    (∃ y, filter_images_v2 exImgH1 exFilK2 exBias1 1 1 = some y ∧ y.d1 = 0) := by
  have h3 := claim5_geometry_amended exImgH1 exFilK3 exBias1 1 1 (by decide) (by decide)
    (by decide) (by decide) (by decide)
  have h2 := claim5_geometry_amended exImgH1 exFilK2 exBias1 1 1 (by decide) (by decide)
    (by decide) (by decide) (by decide)
  exact ⟨⟨(h3.1 (Or.inl (by decide))).2.1, (h3.1 (Or.inl (by decide))).2.2⟩,
    (h2.2 (by decide) (by decide) (by decide)).2.1⟩

/-- `filter_image` depends only on the shapes and in-bounds entries of its
array arguments. -/
theorem filter_image_congr {img img' : Arr3} {filters filters' : Arr4} {sm sn : ℕ}
    (hs1 : 1 ≤ sm) (hs2 : 1 ≤ sn)
    (hi : img.EqOn img') (hf : filters.EqOn filters') :
    OptRel3 (filter_image img filters sm sn) (filter_image img' filters' sm sn) := by
  obtain ⟨hi0, hi1, hi2, hid⟩ := hi
  obtain ⟨hf0, hf1, hf2, hf3, hfd⟩ := hf
  unfold filter_image
  rw [← hi0, ← hi1, ← hi2, ← hf0, ← hf1, ← hf2, ← hf3]
  split_ifs with h1 h2
  · trivial
  · exact ⟨rfl, rfl, rfl, fun i hiy j hjy k hk => rfl⟩
  · rcases hbc : bcastDim filters.d2 img.d2 with _ | nc
    · trivial
    · rw [Option.map_some']
      push_neg at h2
      obtain ⟨ht1, ht2, ht3⟩ := h2
      have hx0 := outExtent_toNat_ne_zero hs1 ht1
      have hx1 := outExtent_toNat_ne_zero hs2 ht2
      refine ⟨rfl, rfl, rfl, ?_⟩
      intro iy hiy jy hjy ch hch
      dsimp only at hiy hjy hch ⊢
      rw [outExtent_toNat_of_le hx0 hs1] at hiy
      rw [outExtent_toNat_of_le hx1 hs2] at hjy
      refine sumR_congr fun dh hdh => sumR_congr fun dw hdw => sumR_congr fun c hcn => ?_
      rw [hfd dh hdh dw hdw (bcastIdx filters.d2 c) (bcastIdx_lt hbc hcn).1 ch hch]
      rw [hid (iy * sm + dh) (read_lt hx0 hiy hdh) (jy * sn + dw) (read_lt hx1 hjy hdw)
        (bcastIdx img.d2 c) (bcastIdx_lt hbc hcn).2]

/-- `filter_images_v2` depends only on the shapes and in-bounds entries of
its array arguments. -/
theorem filter_images_v2_congr {images images' filters filters' : Arr4}
    {biases biases' : Arr1} {sm sn : ℕ} (hs1 : 1 ≤ sm) (hs2 : 1 ≤ sn)
    (hi : images.EqOn images') (hf : filters.EqOn filters') (hb : biases.EqOn biases') :
    OptRel4 (filter_images_v2 images filters biases sm sn)
      (filter_images_v2 images' filters' biases' sm sn) := by
  obtain ⟨hi0, hi1, hi2, hi3, hid⟩ := hi
  obtain ⟨hf0, hf1, hf2, hf3, hfd⟩ := hf
  obtain ⟨hb0, hbd⟩ := hb
  unfold filter_images_v2
  rw [← hi0, ← hi1, ← hi2, ← hi3, ← hf0, ← hf1, ← hf2, ← hf3, ← hb0]
  split_ifs with h1 h2 h3
  · exact trivial
  · exact trivial
  · show Arr4.EqOn _ _
    refine ⟨rfl, rfl, rfl, rfl, ?_⟩
    intro n hn iy hiy jy hjy ch hch
    dsimp only at hn hiy hjy hch ⊢
    congr 1
    · rcases not_and_or.mp h2 with hemp | hsome
      · rw [not_not] at hemp
        rcases hemp with h | h | h <;> exact absurd h (by omega)
      · obtain ⟨nc, hnc⟩ := Option.ne_none_iff_exists'.mp hsome
        rw [hnc, Option.getD_some]
        have ht1 : (outExtent images.d1 filters.d0 sm).toNat ≠ 0 := by omega
        have ht2 : (outExtent images.d2 filters.d1 sn).toNat ≠ 0 := by omega
        have hx0 := outExtent_toNat_ne_zero hs1 ht1
        have hx1 := outExtent_toNat_ne_zero hs2 ht2
        rw [outExtent_toNat_of_le hx0 hs1] at hiy
        rw [outExtent_toNat_of_le hx1 hs2] at hjy
        refine sumR_congr fun dh hdh => sumR_congr fun dw hdw => sumR_congr fun c hcn => ?_
        rw [hfd dh hdh dw hdw (bcastIdx filters.d2 c) (bcastIdx_lt hnc hcn).1 ch hch]
        rw [hid n hn (iy * sm + dh) (read_lt hx0 hiy hdh) (jy * sn + dw)
          (read_lt hx1 hjy hdw) (bcastIdx images.d3 c) (bcastIdx_lt hnc hcn).2]
    · exact hbd (bcastIdx biases.d0 ch) (bcastIdx_bias_lt h3 hch)
  · exact trivial

/-- `filter_images_v3` depends only on the shapes and in-bounds entries of
its array arguments. -/
theorem filter_images_v3_congr {images images' filters filters' : Arr4}
    {biases biases' : Arr1} {sm sn : ℕ} (hs1 : 1 ≤ sm) (hs2 : 1 ≤ sn)
    (hi : images.EqOn images') (hf : filters.EqOn filters') (hb : biases.EqOn biases') :
    OptRel4 (filter_images_v3 images filters biases sm sn)
      (filter_images_v3 images' filters' biases' sm sn) := by
  obtain ⟨hi0, hi1, hi2, hi3, hid⟩ := hi
  obtain ⟨hf0, hf1, hf2, hf3, hfd⟩ := hf
  obtain ⟨hb0, hbd⟩ := hb
  unfold filter_images_v3
  rw [← hi0, ← hi1, ← hi2, ← hi3, ← hf0, ← hf1, ← hf2, ← hf3, ← hb0]
  split_ifs with h1 h2 h3
  · exact trivial
  · exact trivial
  · show Arr4.EqOn _ _
    refine ⟨rfl, rfl, rfl, rfl, ?_⟩
    intro n hn iy hiy jy hjy ch hch
    dsimp only at hn hiy hjy hch ⊢
    congr 1
    · have hsplit : filters.d0 = 0 ∨ filters.d1 = 0 ∨ filters.d2 ≤ images.d3 := by
        by_contra hcon
        push_neg at hcon
        exact h2 ⟨by omega, by omega, by omega, by omega, hcon.1, hcon.2.1, hcon.2.2⟩
      rcases hsplit with h | h | h
      · rw [h]
        rfl
      · refine sumR_congr fun dh hdh => ?_
        rw [h]
        rfl
      · have ht1 : (outExtent images.d1 filters.d0 sm).toNat ≠ 0 := by omega
        have ht2 : (outExtent images.d2 filters.d1 sn).toNat ≠ 0 := by omega
        have hx0 := outExtent_toNat_ne_zero hs1 ht1
        have hx1 := outExtent_toNat_ne_zero hs2 ht2
        rw [outExtent_toNat_of_le hx0 hs1] at hiy
        rw [outExtent_toNat_of_le hx1 hs2] at hjy
        refine sumR_congr fun dh hdh => sumR_congr fun dw hdw => sumR_congr fun c hcn => ?_
        rw [hid n hn (iy * sm + dh) (read_lt hx0 hiy hdh) (jy * sn + dw)
          (read_lt hx1 hjy hdw) c (by omega)]
        rw [hfd dh hdh dw hdw c hcn ch hch]
    · exact hbd (bcastIdx biases.d0 ch) (bcastIdx_bias_lt h3 hch)
  · exact trivial

/-- `filter_images_v1` depends only on the shapes and in-bounds entries of
its array arguments. -/
theorem filter_images_v1_congr {batch batch' filters filters' : Arr4}
    {biases biases' : Arr1} {sm sn : ℕ} (hs1 : 1 ≤ sm) (hs2 : 1 ≤ sn)
    (hi : batch.EqOn batch') (hf : filters.EqOn filters') (hb : biases.EqOn biases') :
    OptRelV1 (filter_images_v1 batch filters biases sm sn)
      (filter_images_v1 batch' filters' biases' sm sn) := by
  have hi0 := hi.1
  have hb0 := hb.1
  unfold filter_images_v1
  rw [← hi0, ← hb0]
  by_cases hB : batch.d0 = 0
  · simp only [if_pos hB]
    rcases hbc : bcastDim 0 biases.d0 with _ | d
    · trivial
    · simp only [Option.map_some']
      exact ⟨rfl, fun i hiy => rfl⟩
  · simp only [if_neg hB]
    have hbI : ∀ n, (batchImage batch n).EqOn (batchImage batch' n) ∨ batch.d0 ≤ n := by
      intro n
      by_cases hn : n < batch.d0
      · exact Or.inl ⟨hi.2.1, hi.2.2.1, hi.2.2.2.1,
          fun i hiy j hjy k hk => hi.2.2.2.2 n hn i hiy j hjy k hk⟩
      · exact Or.inr (by omega)
    have hrel0 := filter_image_congr hs1 hs2
      ((hbI 0).resolve_right (by omega)) hf
    rcases h0 : filter_image (batchImage batch 0) filters sm sn with _ | y0 <;>
      rcases h0' : filter_image (batchImage batch' 0) filters' sm sn with _ | y0' <;>
      rw [h0, h0'] at hrel0
    · simp only [Option.none_bind]
      trivial
    · exact False.elim hrel0
    · exact False.elim hrel0
    · have he : y0.EqOn y0' := hrel0
      simp only [Option.some_bind]
      rw [← he.2.2.1]
      rcases hbc : bcastDim y0.d2 biases.d0 with _ | dc
      · trivial
      · simp only [Option.map_some']
        obtain ⟨d00, d01, d02⟩ := filter_image_dims h0
        obtain ⟨d10, d11, d12⟩ := filter_image_dims h0'
        simp only [batchImage] at d00 d01 d10 d11
        show Arr4.EqOn _ _
        refine ⟨hi0 ▸ rfl, he.1, he.2.1, rfl, ?_⟩
        intro n hn i hiy j hjy c hcc
        dsimp only at hn hiy hjy hcc ⊢
        congr 1
        · have hreln := filter_image_congr hs1 hs2 ((hbI n).resolve_right (by omega)) hf
          rcases hn0 : filter_image (batchImage batch n) filters sm sn with _ | yn <;>
            rcases hn0' : filter_image (batchImage batch' n) filters' sm sn with _ | yn'
          · rfl
          · rw [hn0, hn0'] at hreln
            exact False.elim hreln
          · rw [hn0, hn0'] at hreln
            exact False.elim hreln
          · rw [hn0, hn0'] at hreln
            have hren : yn.EqOn yn' := hreln
            simp only [Option.elim_some]
            obtain ⟨dn0, dn1, dn2⟩ := filter_image_dims hn0
            simp only [batchImage] at dn0 dn1
            refine hren.2.2.2 i ?_ j ?_ (bcastIdx y0.d2 c) ?_
            · rw [dn0, ← d00]
              exact hiy
            · rw [dn1, ← d01]
              exact hjy
            · rw [dn2, ← d02]
              exact (bcastIdx_lt hbc hcc).1
        · exact hb.2 (bcastIdx biases.d0 c) (bcastIdx_lt hbc hcc).2

/-- C8: each variant is a pure, deterministic function of its four inputs:
with positive strides, argument arrays that agree in shape and in every
in-bounds entry produce the same outcome — the same failure, or outputs
agreeing in shape and in every in-bounds entry; nothing outside the
arguments (such as out-of-bounds junk in the backing data) can change the
result, and identical inputs trivially yield identical outputs. -/
theorem claim8_deterministic (images images' filters filters' : Arr4)
    (biases biases' : Arr1) (sm sn : ℕ) (hs1 : 1 ≤ sm) (hs2 : 1 ≤ sn)
    (hi : images.EqOn images') (hf : filters.EqOn filters') (hb : biases.EqOn biases') :
    OptRelV1 (filter_images_v1 images filters biases sm sn)
      (filter_images_v1 images' filters' biases' sm sn) ∧
    OptRel4 (filter_images_v2 images filters biases sm sn)
      (filter_images_v2 images' filters' biases' sm sn) ∧
    OptRel4 (filter_images_v3 images filters biases sm sn)
      (filter_images_v3 images' filters' biases' sm sn) :=
  ⟨filter_images_v1_congr hs1 hs2 hi hf hb, filter_images_v2_congr hs1 hs2 hi hf hb,
    filter_images_v3_congr hs1 hs2 hi hf hb⟩

/-- C8 witness: the junk variants of the 1×1×1×1 input agree with the
originals on every in-bounds entry, so all three variants produce related
outcomes. -/
theorem claim8_deterministic_witness :
    OptRelV1 (filter_images_v1 exImg1 exFil1 exBias1 1 1)
      (filter_images_v1 exImg1junk exFil1junk exBias1junk 1 1) ∧
    OptRel4 (filter_images_v2 exImg1 exFil1 exBias1 1 1)
      (filter_images_v2 exImg1junk exFil1junk exBias1junk 1 1) ∧
    OptRel4 (filter_images_v3 exImg1 exFil1 exBias1 1 1)
      (filter_images_v3 exImg1junk exFil1junk exBias1junk 1 1) :=
  claim8_deterministic exImg1 exImg1junk exFil1 exFil1junk exBias1 exBias1junk 1 1
    (by decide) (by decide) (by decide) (by decide) (by decide)

end Technicalities
